import Mathlib

/-!
Verification of the CoastSat workshop notebook core (shoreline cross-distance
time series with quality control and tidal correction).

Numeric values that flow through the notebook are numpy float64 arrays.  We
model a float64 value exactly, as either NaN, a signed infinity, or a finite
rational (exact arithmetic, no rounding; signed zero is not distinguished).
The arithmetic operations below implement the IEEE-754 rules for the special
values, which is what numpy uses elementwise.
-/

inductive FVal where
  | nan : FVal
  | pinf : FVal
  | ninf : FVal
  | fin : ℚ → FVal
deriving DecidableEq, Repr

/-- IEEE-754 addition on the model: NaN absorbs, opposite infinities give NaN. -/
def FVal.add : FVal → FVal → FVal
  | .nan, _ => .nan
  | _, .nan => .nan
  | .pinf, .ninf => .nan
  | .pinf, _ => .pinf
  | .ninf, .pinf => .nan
  | .ninf, _ => .ninf
  | .fin _, .pinf => .pinf
  | .fin _, .ninf => .ninf
  | .fin a, .fin b => .fin (a + b)

/-- IEEE-754 subtraction on the model. -/
def FVal.sub : FVal → FVal → FVal
  | .nan, _ => .nan
  | _, .nan => .nan
  | .pinf, .pinf => .nan
  | .pinf, _ => .pinf
  | .ninf, .ninf => .nan
  | .ninf, _ => .ninf
  | .fin _, .pinf => .ninf
  | .fin _, .ninf => .pinf
  | .fin a, .fin b => .fin (a - b)

/-- IEEE-754 division on the model: a nonzero finite value divided by zero
gives a signed infinity (numpy emits a warning, suppressed in the notebook,
and produces the infinity); 0/0 gives NaN. -/
def FVal.div : FVal → FVal → FVal
  | .nan, _ => .nan
  | _, .nan => .nan
  | .pinf, .pinf => .nan
  | .pinf, .ninf => .nan
  | .ninf, .pinf => .nan
  | .ninf, .ninf => .nan
  | .pinf, .fin b => if 0 ≤ b then .pinf else .ninf
  | .ninf, .fin b => if 0 ≤ b then .ninf else .pinf
  | .fin _, .pinf => .fin 0
  | .fin _, .ninf => .fin 0
  | .fin a, .fin b =>
      if b = 0 then (if a = 0 then .nan else if 0 < a then .pinf else .ninf)
      else .fin (a / b)

/-!
Tidal correction, embedded from the notebook cell

    reference_elevation = 0
    beach_slope = 1/60
    cross_distance_tidally_corrected = \x7b\x7d
    for key in cross_distance.keys():
        correction = (tides_sat-reference_elevation)/beach_slope
        cross_distance_tidally_corrected[key] = cross_distance[key] + correction

`cross_distance` is a dict from transect name to a float64 array indexed by
acquisition date; we model it as an association list.  The loop body computes
the same `correction` array on every iteration (it does not depend on `key`),
and assigns into the initially empty dict `cross_distance_tidally_corrected`;
python dict assignment with fresh keys appends in iteration order.
-/

/-- The elementwise numpy expression `(tides_sat - reference_elevation) / beach_slope`. -/
def correction (tides_sat : List FVal) (ref slope : FVal) : List FVal :=
  tides_sat.map (fun t => FVal.div (FVal.sub t ref) slope)

/-- Reading `cross_distance[key]` (the key is always present when taken from
`cross_distance.keys()`). -/
def lookupD (cd : List (String × List FVal)) (k : String) : List FVal :=
  (cd.lookup k).getD []

/-- One iteration of the notebook loop: the state is the pair
(`cross_distance`, `cross_distance_tidally_corrected`); the iteration only
assigns into the second dict. -/
def tidal_step (tides_sat : List FVal) (ref slope : FVal)
    (st : List (String × List FVal) × List (String × List FVal)) (key : String) :
    List (String × List FVal) × List (String × List FVal) :=
  (st.1, st.2 ++ [(key, List.zipWith FVal.add (lookupD st.1 key) (correction tides_sat ref slope))])

/-- The whole loop `for key in cross_distance.keys(): ...`, started from the
input dict and the fresh empty dict. -/
def tidal_run (cd : List (String × List FVal)) (tides_sat : List FVal) (ref slope : FVal) :
    List (String × List FVal) × List (String × List FVal) :=
  (cd.map Prod.fst).foldl (tidal_step tides_sat ref slope) (cd, [])

/-- The dict `cross_distance_tidally_corrected` after the loop. -/
def cross_distance_tidally_corrected (cd : List (String × List FVal)) (tides_sat : List FVal)
    (ref slope : FVal) : List (String × List FVal) :=
  (tidal_run cd tides_sat ref slope).2

/-- The notebook constant `reference_elevation = 0`. -/
def reference_elevation : FVal := FVal.fin 0

/-- The notebook constant `beach_slope = 1/60`. -/
def beach_slope : FVal := FVal.fin (1 / 60)

/-!
The notebook calls `SDS_transects.compute_intersection_QC` and
`SDS_tools.get_closest_datapoint` from the coastsat package, which is not part of this
source tree; only the calls and their settings appear here.  The two functions are
modelled from the spec below.
-/

/-- Modelled from the spec: geometry is consumed here only through the projection of each
shoreline point onto a transect, giving a chainage (signed distance along the transect) and
an alongshore offset (perpendicular distance).  A per-date observation for a transect is the
list of (chainage, offset) pairs of that date.  Selecting the points within the alongshore
band keeps those with absolute offset at most along_dist and returns their chainages. -/
def selectBand (along_dist : ℚ) (pts : List (ℚ × ℚ)) : List ℚ :=
  (pts.filter (fun p => decide (|p.2| ≤ along_dist))).map Prod.fst

/-- Mean of a list of rationals (0 for the empty list, which stays behind the min_points
guard). -/
def meanQ (xs : List ℚ) : ℚ := xs.sum / xs.length

/-- Population variance; the dispersion gate compares it against the square of max_std so
that everything stays rational (std ≤ max_std iff variance ≤ max_std ^ 2). -/
def varQ (xs : List ℚ) : ℚ := ((xs.map (fun x => (x - meanQ xs) ^ 2)).sum) / xs.length

/-- Range (max minus min) of a nonempty list, 0 for the empty list. -/
def rangeQ : List ℚ → ℚ
  | [] => 0
  | x :: xs => xs.foldl max x - xs.foldl min x

/-- Modelled from the spec: the dispersion gate passes when the standard deviation is at
most max_std and the range is at most max_range. -/
def dispersionOK (max_std max_range : ℚ) (xs : List ℚ) : Bool :=
  decide (varQ xs ≤ max_std ^ 2 ∧ rangeQ xs ≤ max_range)

/-- Modelled from the spec: gap-based one-dimensional clustering of a sorted chainage list;
the exact rule is an open design choice in the spec, fixed here as splitting at consecutive
gaps larger than the given threshold. -/
def gapSplit (g : ℚ) : List ℚ → List (List ℚ)
  | [] => []
  | x :: xs =>
    match gapSplit g xs with
    | [] => [[x]]
    | [] :: cs => [x] :: cs
    | (y :: c) :: cs => if y - x ≤ g then (x :: y :: c) :: cs else [x] :: (y :: c) :: cs

/-- Median of a list of rationals (numpy convention: middle element of the sorted list for
odd length, mean of the two middle elements for even length). -/
def median (xs : List ℚ) : ℚ :=
  if xs.length % 2 = 1 then (xs.insertionSort (· ≤ ·)).getD (xs.length / 2) 0
  else
    ((xs.insertionSort (· ≤ ·)).getD (xs.length / 2 - 1) 0 +
      (xs.insertionSort (· ≤ ·)).getD (xs.length / 2) 0) / 2

/-- The multiple-intersection policy, the notebook setting multiple_inter. -/
inductive Policy where
  | auto : Policy
  | nan : Policy
  | max : Policy
deriving DecidableEq, Repr

/-- The settings dict passed to compute_intersection_QC by the notebook. -/
structure QCSettings where
  along_dist : ℚ
  min_points : ℕ
  max_std : ℚ
  max_range : ℚ
  min_chainage : ℚ
  multiple_inter : Policy
  prc_multiple : ℚ
deriving DecidableEq, Repr

/-- Outcome of the first, policy-independent pass over one (transect, date) cell. -/
inductive Outcome where
  | value : ℚ → Outcome
  | reject : Outcome
  | multi : List (List ℚ) → Outcome
deriving DecidableEq, Repr

/-- Modelled from the spec: the per-date analysis for one transect.  Select the points in
the alongshore band; with fewer than min_points of them the cell is rejected; if the
dispersion gate passes the cell value is the median chainage; otherwise gap clustering is
attempted, and the cell is a multi-intersection cell when at least two clusters each pass
the dispersion gate, else it is rejected. -/
def perDate (s : QCSettings) (pts : List (ℚ × ℚ)) : Outcome :=
  let ch := selectBand s.along_dist pts
  if ch.length < s.min_points then Outcome.reject
  else if dispersionOK s.max_std s.max_range ch then Outcome.value (median ch)
  else
    let cs := gapSplit s.max_std (ch.insertionSort (· ≤ ·))
    if 2 ≤ cs.length ∧ cs.all (dispersionOK s.max_std s.max_range) = true then
      Outcome.multi cs
    else Outcome.reject

def isMulti : Outcome → Bool
  | Outcome.multi _ => true
  | _ => false

/-- Resolution of a cell under the nan policy: any multi-intersection date becomes NaN. -/
def resolveNan : Outcome → FVal
  | Outcome.value v => FVal.fin v
  | Outcome.reject => FVal.nan
  | Outcome.multi _ => FVal.nan

/-- Resolution of a cell under the max policy: a multi-intersection date takes the median of
the seaward-most (largest chainage) cluster, the last one of the sorted cluster list. -/
def resolveMax : Outcome → FVal
  | Outcome.value v => FVal.fin v
  | Outcome.reject => FVal.nan
  | Outcome.multi cs => FVal.fin (median (cs.getLastD []))

/-- Modelled from the spec: landward rejection, applied after a chainage is chosen: a value
below min_chainage becomes NaN. -/
def applyMinChainage (m : ℚ) : FVal → FVal
  | FVal.fin v => if v < m then FVal.nan else FVal.fin v
  | x => x

/-- Modelled from the spec: the engine for one transect.  First pass: the per-date outcomes
for all dates.  Then the policy decision, made once for the whole transect: under auto the
max resolution is used exactly when the fraction of dates with multiple detected clusters
exceeds prc_multiple.  Second pass: every date is resolved with the decided policy and the
landward rejection is applied. -/
def computeTransect (s : QCSettings) (dates : List (List (ℚ × ℚ))) : List FVal :=
  let outs := dates.map (perDate s)
  let useMax : Bool :=
    match s.multiple_inter with
    | Policy.max => true
    | Policy.nan => false
    | Policy.auto =>
        decide (s.prc_multiple * (outs.length : ℚ) < (outs.countP isMulti : ℚ))
  outs.map (fun o =>
    applyMinChainage s.min_chainage (if useMax then resolveMax o else resolveNan o))

/-- Modelled from the spec: the whole engine, one series per transect. -/
def compute_intersection_QC (s : QCSettings)
    (obs : List (String × List (List (ℚ × ℚ)))) : List (String × List FVal) :=
  obs.map (fun kv => (kv.1, computeTransect s kv.2))

/-!
Nearest-timestamp tide lookup.  The notebook line

    tides_sat = SDS_tools.get_closest_datapoint(dates_sat, dates_ts, tides_ts)

calls into the coastsat package; the lookup is modelled from the spec below.  Timestamps
are modelled as rationals (seconds since an epoch). -/

/-- Modelled from the spec: index of the first sample of ts whose timestamp is closest in
absolute time to d; keeping the first minimizer breaks ties towards the earlier sample of a
chronologically sorted series. -/
def argminAbs (d : ℚ) : List ℚ → ℕ
  | [] => 0
  | [_] => 0
  | t :: u :: ts =>
    if |t - d| ≤ |(u :: ts).getD (argminAbs d (u :: ts)) 0 - d| then 0
    else argminAbs d (u :: ts) + 1

/-- Modelled from the spec: for every acquisition date, the tide level of the sample of the
external tide series closest in absolute time, ties towards the earlier sample. -/
def get_closest_datapoint (dates_sat dates_ts tides_ts : List ℚ) : List ℚ :=
  dates_sat.map (fun d => tides_ts.getD (argminAbs d dates_ts) 0)

/-!
The time-series assembly.  Embedded from the notebook cells

    out_dict = dict([])
    out_dict[dates-key] = dates_sat
    for key in cross_distance.keys():
        out_dict[key] = cross_distance[key]
    df = pd.DataFrame(out_dict)
    df.to_csv(fn, sep=comma)

(one cell assembles the raw series, the analogous cell the tidally corrected ones).  For
equal-length columns, pd.DataFrame over this dict produces one row per index position, in
order: row i holds the i-th date and the i-th entry of every transect column, in column
insertion order, and NaN entries are kept as NaN cells.  out_dict_table models those rows. -/

def out_dict_table (dates : List ℚ) (cols : List (String × List FVal)) :
    List (ℚ × List FVal) :=
  (List.range dates.length).map (fun i =>
    (dates.getD i 0, cols.map (fun kv => kv.2.getD i FVal.nan)))

/-! Evaluation rules for the arithmetic on the model, one per match arm that the proofs
need.  Rational arithmetic itself stays symbolic (the kernel does not reduce it), so these
lemmas expose the constructor structure and leave the rational expressions to norm_num. -/

theorem FVal.fin_add_fin (a b : ℚ) : FVal.add (.fin a) (.fin b) = .fin (a + b) := rfl

theorem FVal.nan_add (y : FVal) : FVal.add .nan y = .nan := by cases y <;> rfl

theorem FVal.add_nan (x : FVal) : FVal.add x .nan = .nan := by cases x <;> rfl

theorem FVal.fin_add_pinf (a : ℚ) : FVal.add (.fin a) .pinf = .pinf := rfl

theorem FVal.fin_add_ninf (a : ℚ) : FVal.add (.fin a) .ninf = .ninf := rfl

theorem FVal.fin_sub_fin (a b : ℚ) : FVal.sub (.fin a) (.fin b) = .fin (a - b) := rfl

theorem FVal.nan_sub (y : FVal) : FVal.sub .nan y = .nan := by cases y <;> rfl

theorem FVal.pinf_sub_fin (b : ℚ) : FVal.sub .pinf (.fin b) = .pinf := rfl

theorem FVal.ninf_sub_fin (b : ℚ) : FVal.sub .ninf (.fin b) = .ninf := rfl

theorem FVal.fin_div_fin (a b : ℚ) :
    FVal.div (.fin a) (.fin b) =
      if b = 0 then (if a = 0 then .nan else if 0 < a then .pinf else .ninf)
      else .fin (a / b) := rfl

/-! Basic facts about the loop. -/

theorem tidal_foldl_eq (tides_sat : List FVal) (ref slope : FVal)
    (cd : List (String × List FVal)) :
    ∀ (ks : List String) (acc : List (String × List FVal)),
      ks.foldl (tidal_step tides_sat ref slope) (cd, acc) =
        (cd, acc ++ ks.map (fun k =>
          (k, List.zipWith FVal.add (lookupD cd k) (correction tides_sat ref slope)))) := by
  intro ks
  induction ks with
  | nil => intro acc; simp
  | cons k ks ih =>
      intro acc
      simp only [List.foldl_cons, tidal_step, List.map_cons]
      rw [ih]
      simp

theorem lookup_of_mem_nodup (cd : List (String × List FVal))
    (hnd : (cd.map Prod.fst).Nodup) :
    ∀ kv ∈ cd, cd.lookup kv.1 = some kv.2 := by
  induction cd with
  | nil => intro kv h; cases h
  | cons p rest ih =>
      obtain ⟨a, b⟩ := p
      intro kv hmem
      simp only [List.map_cons, List.nodup_cons] at hnd
      rw [List.mem_cons] at hmem
      rcases hmem with h | h
      · subst h
        simp [List.lookup]
      · have hne : kv.1 ≠ a := by
          intro he
          exact hnd.1 (he ▸ List.mem_map_of_mem Prod.fst h)
        have hbeq : (kv.1 == a) = false := by
          simp [hne]
        simp only [List.lookup, hbeq]
        exact ih hnd.2 kv h

theorem cross_distance_tidally_corrected_eq (cd : List (String × List FVal))
    (tides_sat : List FVal) (ref slope : FVal)
    (hnd : (cd.map Prod.fst).Nodup) :
    cross_distance_tidally_corrected cd tides_sat ref slope =
      cd.map (fun kv =>
        (kv.1, List.zipWith FVal.add kv.2 (correction tides_sat ref slope))) := by
  unfold cross_distance_tidally_corrected tidal_run
  rw [tidal_foldl_eq]
  simp only [List.nil_append, List.map_map]
  apply List.map_congr_left
  intro kv hkv
  have := lookup_of_mem_nodup cd hnd kv hkv
  simp [Function.comp, lookupD, this]

theorem lookup_map_snd (cd : List (String × List FVal)) (f : List FVal → List FVal)
    (k : String) :
    (cd.map (fun kv => (kv.1, f kv.2))).lookup k = (cd.lookup k).map f := by
  induction cd with
  | nil => simp [List.lookup]
  | cons p rest ih =>
      obtain ⟨a, b⟩ := p
      by_cases h : (k == a) = true
      · simp [List.lookup, h]
      · have hf : (k == a) = false := by simpa using h
        simp [List.lookup, hf, ih]

theorem corrected_lookup (cd : List (String × List FVal)) (tides : List FVal)
    (ref slope : FVal) (hnd : (cd.map Prod.fst).Nodup) (k : String) (raws : List FVal)
    (hk : cd.lookup k = some raws) :
    (cross_distance_tidally_corrected cd tides ref slope).lookup k =
      some (List.zipWith FVal.add raws (correction tides ref slope)) := by
  rw [cross_distance_tidally_corrected_eq cd tides ref slope hnd]
  have h := lookup_map_snd cd (fun v => List.zipWith FVal.add v (correction tides ref slope)) k
  rw [hk] at h
  exact h

theorem zipWith_add_getD (xs ys : List FVal) (i : ℕ) (hx : i < xs.length)
    (hy : i < ys.length) :
    (List.zipWith FVal.add xs ys).getD i FVal.nan =
      FVal.add (xs.getD i FVal.nan) (ys.getD i FVal.nan) := by
  have hl : i < (List.zipWith FVal.add xs ys).length := by
    rw [List.length_zipWith]
    omega
  rw [List.getD_eq_getElem _ _ hl, List.getD_eq_getElem _ _ hx, List.getD_eq_getElem _ _ hy]
  exact List.getElem_zipWith

theorem correction_getD (tides : List FVal) (ref slope : FVal) (i : ℕ)
    (hi : i < tides.length) :
    (correction tides ref slope).getD i FVal.nan =
      FVal.div (FVal.sub (tides.getD i FVal.nan) ref) slope := by
  have hl : i < (correction tides ref slope).length := by
    simpa [correction] using hi
  rw [List.getD_eq_getElem _ _ hl, List.getD_eq_getElem _ _ hi]
  simp [correction]

theorem correction_length (tides : List FVal) (ref slope : FVal) :
    (correction tides ref slope).length = tides.length := by
  simp [correction]

/-! Claim theorems about the tidal correction. -/

/-- C1: for every transect and every date at which the raw cross-shore distance is a finite
value x (and the looked-up tide level is a finite value t), the tidally corrected distance at
that date equals x + (t - reference_elevation) / beach_slope with the configured scalars
reference_elevation = 0 and beach_slope = 1/60. -/
theorem C1_tidal_correction_formula (cd : List (String × List FVal)) (tides : List FVal)
    (hnd : (cd.map Prod.fst).Nodup) (k : String) (raws : List FVal)
    (hk : cd.lookup k = some raws) (i : ℕ) (x t : ℚ)
    (hi : i < raws.length) (hit : i < tides.length)
    (hx : raws.getD i FVal.nan = FVal.fin x) (ht : tides.getD i FVal.nan = FVal.fin t) :
    ∃ cs,
      (cross_distance_tidally_corrected cd tides reference_elevation beach_slope).lookup k
        = some cs ∧
      cs.getD i FVal.nan = FVal.fin (x + (t - 0) / (1 / 60)) := by
  refine ⟨List.zipWith FVal.add raws (correction tides reference_elevation beach_slope),
    corrected_lookup cd tides reference_elevation beach_slope hnd k raws hk, ?_⟩
  rw [zipWith_add_getD raws _ i hi (by rw [correction_length]; exact hit), hx,
    correction_getD tides _ _ i hit, ht]
  simp only [reference_elevation, beach_slope, FVal.fin_sub_fin, FVal.fin_div_fin]
  rw [if_neg (by norm_num), FVal.fin_add_fin]

theorem C1_witness :
    ([(("NA1" : String), [FVal.fin 100])].map Prod.fst).Nodup ∧
    ([(("NA1" : String), [FVal.fin 100])]).lookup "NA1" = some [FVal.fin 100] ∧
    ∃ cs,
      (cross_distance_tidally_corrected [("NA1", [FVal.fin 100])] [FVal.fin 1]
          reference_elevation beach_slope).lookup "NA1" = some cs ∧
      cs.getD 0 FVal.nan = FVal.fin (100 + (1 - 0) / (1 / 60)) :=
  ⟨by simp, by simp [List.lookup],
    C1_tidal_correction_formula [("NA1", [FVal.fin 100])] [FVal.fin 1] (by simp) "NA1"
      [FVal.fin 100] (by simp [List.lookup]) 0 100 1 (by simp) (by simp) rfl rfl⟩

/-- C4: NaN raw values propagate: if the raw cross-shore distance at a date is NaN, the
tidally corrected distance at that date is NaN; the correction is a total computation, so no
exception is raised and no finite value is produced for that cell. -/
theorem C4_nan_propagates (cd : List (String × List FVal)) (tides : List FVal)
    (hnd : (cd.map Prod.fst).Nodup) (k : String) (raws : List FVal)
    (hk : cd.lookup k = some raws) (i : ℕ)
    (hi : i < raws.length) (hit : i < tides.length)
    (hx : raws.getD i FVal.nan = FVal.nan) :
    ∃ cs,
      (cross_distance_tidally_corrected cd tides reference_elevation beach_slope).lookup k
        = some cs ∧
      cs.getD i FVal.nan = FVal.nan := by
  refine ⟨List.zipWith FVal.add raws (correction tides reference_elevation beach_slope),
    corrected_lookup cd tides reference_elevation beach_slope hnd k raws hk, ?_⟩
  rw [zipWith_add_getD raws _ i hi (by rw [correction_length]; exact hit), hx, FVal.nan_add]

theorem C4_witness :
    ([(("NA1" : String), [FVal.nan])].map Prod.fst).Nodup ∧
    ([(("NA1" : String), [FVal.nan])]).lookup "NA1" = some [FVal.nan] ∧
    ∃ cs,
      (cross_distance_tidally_corrected [("NA1", [FVal.nan])] [FVal.fin 1]
          reference_elevation beach_slope).lookup "NA1" = some cs ∧
      cs.getD 0 FVal.nan = FVal.nan :=
  ⟨by simp, by simp [List.lookup],
    C4_nan_propagates [("NA1", [FVal.nan])] [FVal.fin 1] (by simp) "NA1" [FVal.nan]
      (by simp [List.lookup]) 0 (by simp) (by simp) rfl⟩

/-- C5: round trip: running the correction with the reference elevation set to the tide level
looked up for a date leaves the raw distance at that date unchanged (zero net shift). -/
theorem C5_roundtrip (cd : List (String × List FVal)) (tides : List FVal)
    (hnd : (cd.map Prod.fst).Nodup) (k : String) (raws : List FVal)
    (hk : cd.lookup k = some raws) (i : ℕ) (x t : ℚ)
    (hi : i < raws.length) (hit : i < tides.length)
    (hx : raws.getD i FVal.nan = FVal.fin x) (ht : tides.getD i FVal.nan = FVal.fin t) :
    ∃ cs,
      (cross_distance_tidally_corrected cd tides (FVal.fin t) beach_slope).lookup k
        = some cs ∧
      cs.getD i FVal.nan = raws.getD i FVal.nan := by
  refine ⟨List.zipWith FVal.add raws (correction tides (FVal.fin t) beach_slope),
    corrected_lookup cd tides (FVal.fin t) beach_slope hnd k raws hk, ?_⟩
  rw [zipWith_add_getD raws _ i hi (by rw [correction_length]; exact hit), hx,
    correction_getD tides _ _ i hit, ht]
  simp only [beach_slope, FVal.fin_sub_fin, FVal.fin_div_fin]
  rw [if_neg (by norm_num), FVal.fin_add_fin]
  congr 1
  ring

theorem C5_witness :
    ([(("NA1" : String), [FVal.fin 100])].map Prod.fst).Nodup ∧
    ([(("NA1" : String), [FVal.fin 100])]).lookup "NA1" = some [FVal.fin 100] ∧
    ∃ cs,
      (cross_distance_tidally_corrected [("NA1", [FVal.fin 100])] [FVal.fin 1]
          (FVal.fin 1) beach_slope).lookup "NA1" = some cs ∧
      cs.getD 0 FVal.nan = ([FVal.fin 100] : List FVal).getD 0 FVal.nan :=
  ⟨by simp, by simp [List.lookup],
    C5_roundtrip [("NA1", [FVal.fin 100])] [FVal.fin 1] (by simp) "NA1" [FVal.fin 100]
      (by simp [List.lookup]) 0 100 1 (by simp) (by simp) rfl rfl⟩

/-- C3 counterexample: the notebook never validates the slope.  A zero slope supplied to the
correction is not rejected and no error is raised before computation: the loop runs, the
division by the zero slope executes and produces +infinity, which is added onto the raw
distances.  So a non-positive slope is not rejected at configuration time and a division by a
zero slope does occur at runtime. -/
theorem C3_counterexample :
    cross_distance_tidally_corrected [("NA1", [FVal.fin 100])] [FVal.fin 1]
      (FVal.fin 0) (FVal.fin 0) = [("NA1", [FVal.pinf])] := by
  unfold cross_distance_tidally_corrected tidal_run
  norm_num [tidal_step, lookupD, List.lookup, correction, FVal.fin_sub_fin, FVal.fin_div_fin,
    FVal.fin_add_pinf]

/-- C3 amended: the notebook does not validate the slope at all, but it configures the slope
as the literal positive constant 1/60, so in the program as written the divisor of the tidal
correction is never zero: for every finite tide level the correction term is the finite value
60 * t, and no division by zero occurs. -/
theorem C3_amended_configured_slope :
    beach_slope = FVal.fin (1 / 60) ∧ (0 : ℚ) < 1 / 60 ∧
    ∀ t : ℚ,
      FVal.div (FVal.sub (FVal.fin t) reference_elevation) beach_slope
        = FVal.fin (60 * t) := by
  refine ⟨rfl, by norm_num, ?_⟩
  intro t
  simp only [reference_elevation, beach_slope, FVal.fin_sub_fin, FVal.fin_div_fin]
  rw [if_neg (by norm_num)]
  congr 1
  field_simp
  ring

/-- Helper for C9: adding any correction value to a finite raw value and subtracting the raw
value again gives back exactly the correction value, whatever its kind. -/
theorem sub_add_fin (x : ℚ) (c : FVal) :
    FVal.sub (FVal.add (FVal.fin x) c) (FVal.fin x) = c := by
  cases c with
  | nan => rfl
  | pinf => rfl
  | ninf => rfl
  | fin y =>
      show FVal.fin (x + y - x) = FVal.fin y
      congr 1
      ring

/-- C9 counterexample: the claimed identity fails as universally stated: at a date where one
transect has a NaN raw value and another a finite raw value, the difference corrected minus
raw is NaN for the first transect but the finite correction for the second. -/
theorem C9_counterexample :
    FVal.sub
        ((lookupD (cross_distance_tidally_corrected
            [("NA1", [FVal.nan]), ("NA2", [FVal.fin 0])] [FVal.fin 1]
            reference_elevation beach_slope) "NA1").getD 0 FVal.nan)
        ((lookupD [("NA1", [FVal.nan]), ("NA2", [FVal.fin 0])] "NA1").getD 0 FVal.nan)
      ≠
      FVal.sub
        ((lookupD (cross_distance_tidally_corrected
            [("NA1", [FVal.nan]), ("NA2", [FVal.fin 0])] [FVal.fin 1]
            reference_elevation beach_slope) "NA2").getD 0 FVal.nan)
        ((lookupD [("NA1", [FVal.nan]), ("NA2", [FVal.fin 0])] "NA2").getD 0 FVal.nan) := by
  have hccd :
      cross_distance_tidally_corrected [("NA1", [FVal.nan]), ("NA2", [FVal.fin 0])]
        [FVal.fin 1] reference_elevation beach_slope
        = [("NA1", [FVal.nan]), ("NA2", [FVal.fin 60])] := by
    rw [cross_distance_tidally_corrected_eq _ _ _ _ (by simp)]
    norm_num [correction, reference_elevation, beach_slope, FVal.fin_sub_fin,
      FVal.fin_div_fin, FVal.nan_add, FVal.fin_add_fin]
  rw [hccd]
  norm_num [lookupD, List.lookup, show (("NA2" : String) == "NA1") = false from rfl,
    FVal.nan_sub, FVal.fin_sub_fin]
  exact fun h => FVal.noConfusion h

/-- C9 amended: one correction vector, computed once from the global tide series, reference
elevation and slope, is added to every transect series; hence for every date at which both
raw values are finite, the shift corrected minus raw is identical across the two transects
(both equal the correction entry for that date). -/
theorem C9_uniform_correction (cd : List (String × List FVal)) (tides : List FVal)
    (ref slope : FVal) (hnd : (cd.map Prod.fst).Nodup)
    (k1 k2 : String) (raws1 raws2 : List FVal)
    (hk1 : cd.lookup k1 = some raws1) (hk2 : cd.lookup k2 = some raws2)
    (i : ℕ) (x1 x2 : ℚ)
    (hi1 : i < raws1.length) (hi2 : i < raws2.length) (hit : i < tides.length)
    (hx1 : raws1.getD i FVal.nan = FVal.fin x1)
    (hx2 : raws2.getD i FVal.nan = FVal.fin x2) :
    ∃ cs1 cs2,
      (cross_distance_tidally_corrected cd tides ref slope).lookup k1 = some cs1 ∧
      (cross_distance_tidally_corrected cd tides ref slope).lookup k2 = some cs2 ∧
      FVal.sub (cs1.getD i FVal.nan) (raws1.getD i FVal.nan)
        = FVal.sub (cs2.getD i FVal.nan) (raws2.getD i FVal.nan) := by
  refine ⟨List.zipWith FVal.add raws1 (correction tides ref slope),
    List.zipWith FVal.add raws2 (correction tides ref slope),
    corrected_lookup cd tides ref slope hnd k1 raws1 hk1,
    corrected_lookup cd tides ref slope hnd k2 raws2 hk2, ?_⟩
  rw [zipWith_add_getD raws1 _ i hi1 (by rw [correction_length]; exact hit),
    zipWith_add_getD raws2 _ i hi2 (by rw [correction_length]; exact hit), hx1, hx2,
    sub_add_fin, sub_add_fin]

theorem C9_witness :
    ([(("NA1" : String), [FVal.fin 100]), (("NA2" : String), [FVal.fin 80])].map
      Prod.fst).Nodup ∧
    ([(("NA1" : String), [FVal.fin 100]), ("NA2", [FVal.fin 80])]).lookup "NA1"
      = some [FVal.fin 100] ∧
    ([(("NA1" : String), [FVal.fin 100]), ("NA2", [FVal.fin 80])]).lookup "NA2"
      = some [FVal.fin 80] ∧
    ∃ cs1 cs2,
      (cross_distance_tidally_corrected [("NA1", [FVal.fin 100]), ("NA2", [FVal.fin 80])]
          [FVal.fin 1] reference_elevation beach_slope).lookup "NA1" = some cs1 ∧
      (cross_distance_tidally_corrected [("NA1", [FVal.fin 100]), ("NA2", [FVal.fin 80])]
          [FVal.fin 1] reference_elevation beach_slope).lookup "NA2" = some cs2 ∧
      FVal.sub (cs1.getD 0 FVal.nan) (([FVal.fin 100] : List FVal).getD 0 FVal.nan)
        = FVal.sub (cs2.getD 0 FVal.nan) (([FVal.fin 80] : List FVal).getD 0 FVal.nan) :=
  ⟨by simp, by simp [List.lookup], by simp [List.lookup],
    C9_uniform_correction [("NA1", [FVal.fin 100]), ("NA2", [FVal.fin 80])] [FVal.fin 1]
      reference_elevation beach_slope (by simp) "NA1" "NA2" [FVal.fin 100] [FVal.fin 80]
      (by simp [List.lookup]) (by simp [List.lookup]) 0 100 80 (by simp) (by simp) (by simp)
      rfl rfl⟩

theorem computeTransect_length (s : QCSettings) (dates : List (List (ℚ × ℚ))) :
    (computeTransect s dates).length = dates.length := by
  simp [computeTransect]

/-- C2: under the auto policy the multi-intersection decision is per transect, not per
date: the whole transect is computed as under the max policy when the fraction of dates
with multiple detected clusters exceeds prc_multiple (count > prc_multiple * number of
dates), and as under the nan policy otherwise.  In particular every date of the transect,
including dates whose own cell has a single cluster, is resolved with the policy decided
from the statistic over all dates. -/
theorem C2_auto_is_per_transect (s : QCSettings) (dates : List (List (ℚ × ℚ))) :
    computeTransect { s with multiple_inter := Policy.auto } dates =
      (if s.prc_multiple * (dates.length : ℚ)
          < ((dates.map (perDate s)).countP isMulti : ℚ)
      then computeTransect { s with multiple_inter := Policy.max } dates
      else computeTransect { s with multiple_inter := Policy.nan } dates) := by
  have hpda : perDate { s with multiple_inter := Policy.auto } = perDate s := rfl
  have hpdm : perDate { s with multiple_inter := Policy.max } = perDate s := rfl
  have hpdn : perDate { s with multiple_inter := Policy.nan } = perDate s := rfl
  simp only [computeTransect, hpda, hpdm, hpdn, List.length_map, List.countP_map]
  by_cases h : s.prc_multiple * (dates.length : ℚ)
      < ((dates.countP (isMulti ∘ perDate s)) : ℚ)
  · simp [h]
  · simp [h]

theorem resolve_reject (b : Bool) :
    (if b then resolveMax Outcome.reject else resolveNan Outcome.reject) = FVal.nan := by
  cases b <;> rfl

/-- C6: for any (transect, date) cell with fewer than min_points shoreline points inside
the alongshore band (absolute offset at most along_dist), the engine emits NaN for that
cell; the engine is a total function, so no exception is raised. -/
theorem C6_below_min_points_nan (s : QCSettings) (dates : List (List (ℚ × ℚ))) (i : ℕ)
    (hi : i < dates.length)
    (hfew : (selectBand s.along_dist (dates.getD i [])).length < s.min_points) :
    (computeTransect s dates).getD i (FVal.fin 0) = FVal.nan := by
  have hpd : perDate s (dates.getD i []) = Outcome.reject := by
    simp only [perDate]
    rw [if_pos hfew]
  have hlen : i < (computeTransect s dates).length := by
    rw [computeTransect_length]
    exact hi
  rw [List.getD_eq_getElem _ _ hlen]
  simp only [computeTransect, List.getElem_map, List.getD_eq_getElem _ _ hi] at hpd ⊢
  rw [hpd, resolve_reject]
  rfl

theorem C6_witness :
    (0 : ℕ) < ([[((0 : ℚ), (30 : ℚ))]] : List (List (ℚ × ℚ))).length ∧
    (selectBand (⟨25, 3, 15, 50, -100, Policy.auto, 1/10⟩ : QCSettings).along_dist
        (([[((0 : ℚ), (30 : ℚ))]] : List (List (ℚ × ℚ))).getD 0 [])).length
      < (⟨25, 3, 15, 50, -100, Policy.auto, 1/10⟩ : QCSettings).min_points ∧
    (computeTransect ⟨25, 3, 15, 50, -100, Policy.auto, 1/10⟩
        [[((0 : ℚ), (30 : ℚ))]]).getD 0 (FVal.fin 0) = FVal.nan :=
  ⟨by decide, by norm_num [selectBand],
    C6_below_min_points_nan ⟨25, 3, 15, 50, -100, Policy.auto, 1/10⟩
      [[((0 : ℚ), (30 : ℚ))]] 0 (by decide) (by norm_num [selectBand])⟩

theorem argminAbs_lt_length (d : ℚ) :
    ∀ ts : List ℚ, ts ≠ [] → argminAbs d ts < ts.length := by
  intro ts
  induction ts with
  | nil => intro h; exact absurd rfl h
  | cons t rest ih =>
      intro _
      cases rest with
      | nil => simp [argminAbs]
      | cons u us =>
          rw [argminAbs]
          split
          · simp
          · have h2 := ih (by simp)
            simp only [List.length_cons] at h2 ⊢
            omega

theorem argminAbs_is_min (d : ℚ) :
    ∀ ts : List ℚ, ∀ j < ts.length,
      |ts.getD (argminAbs d ts) 0 - d| ≤ |ts.getD j 0 - d| := by
  intro ts
  induction ts with
  | nil => intro j hj; simp at hj
  | cons t rest ih =>
      intro j hj
      cases rest with
      | nil =>
          have hj0 : j = 0 := by
            simp only [List.length_cons, List.length_nil] at hj
            omega
          subst hj0
          simp [argminAbs]
      | cons u us =>
          rw [argminAbs]
          split
          · rename_i hle
            cases j with
            | zero => simp
            | succ j =>
                have hj2 : j < (u :: us).length := by simpa using hj
                calc |(t :: u :: us).getD 0 0 - d|
                    ≤ |(u :: us).getD (argminAbs d (u :: us)) 0 - d| := hle
                  _ ≤ |(u :: us).getD j 0 - d| := ih j hj2
          · rename_i hgt
            push_neg at hgt
            cases j with
            | zero =>
                simpa using le_of_lt hgt
            | succ j =>
                have hj2 : j < (u :: us).length := by simpa using hj
                simpa using ih j hj2

theorem argminAbs_first (d : ℚ) :
    ∀ ts : List ℚ, ∀ j < ts.length,
      |ts.getD j 0 - d| ≤ |ts.getD (argminAbs d ts) 0 - d| → argminAbs d ts ≤ j := by
  intro ts
  induction ts with
  | nil => intro j hj; simp at hj
  | cons t rest ih =>
      intro j hj hmin
      cases rest with
      | nil =>
          have hj0 : j = 0 := by
            simp only [List.length_cons, List.length_nil] at hj
            omega
          subst hj0
          simp [argminAbs]
      | cons u us =>
          rw [argminAbs] at hmin ⊢
          split at hmin <;> rename_i hcond
          · rw [if_pos hcond]
            exact Nat.zero_le j
          · rw [if_neg hcond]
            push_neg at hcond
            cases j with
            | zero =>
                exfalso
                simp only [List.getD_cons_zero, List.getD_cons_succ] at hmin
                exact absurd hmin (not_le.mpr hcond)
            | succ j =>
                have hj2 : j < (u :: us).length := by simpa using hj
                have h3 : argminAbs d (u :: us) ≤ j := by
                  apply ih j hj2
                  simpa using hmin
                omega

theorem getD_map_q (f : ℚ → ℚ) (l : List ℚ) (k : ℕ) (hk : k < l.length) :
    (l.map f).getD k 0 = f (l.getD k 0) := by
  rw [List.getD_eq_getElem _ _ (by simpa using hk), List.getD_eq_getElem _ _ hk,
    List.getElem_map]

/-- C8: for every acquisition date, the tide level used is the tide value of a sample of
the external series that is closest to that date in absolute time; among equally close
samples the one with the smallest index is chosen, which for a chronologically sorted
series is the earlier sample (its timestamp is at most the timestamp of any other
minimizer). -/
theorem C8_nearest_tide_lookup (dates_sat dates_ts tides_ts : List ℚ)
    (hne : dates_ts ≠ []) (hsorted : List.Sorted (· ≤ ·) dates_ts)
    (k : ℕ) (hk : k < dates_sat.length) :
    ∃ i, i < dates_ts.length ∧
      (get_closest_datapoint dates_sat dates_ts tides_ts).getD k 0 = tides_ts.getD i 0 ∧
      (∀ j, j < dates_ts.length →
        |dates_ts.getD i 0 - dates_sat.getD k 0|
          ≤ |dates_ts.getD j 0 - dates_sat.getD k 0|) ∧
      (∀ j, j < dates_ts.length →
        |dates_ts.getD j 0 - dates_sat.getD k 0|
            = |dates_ts.getD i 0 - dates_sat.getD k 0| →
        i ≤ j ∧ dates_ts.getD i 0 ≤ dates_ts.getD j 0) := by
  refine ⟨argminAbs (dates_sat.getD k 0) dates_ts,
    argminAbs_lt_length (dates_sat.getD k 0) dates_ts hne, ?_, ?_, ?_⟩
  · unfold get_closest_datapoint
    rw [getD_map_q]
    exact hk
  · intro j hj
    exact argminAbs_is_min (dates_sat.getD k 0) dates_ts j hj
  · intro j hj heq
    have hle : argminAbs (dates_sat.getD k 0) dates_ts ≤ j :=
      argminAbs_first (dates_sat.getD k 0) dates_ts j hj (le_of_eq heq)
    refine ⟨hle, ?_⟩
    have hi := argminAbs_lt_length (dates_sat.getD k 0) dates_ts hne
    rw [List.getD_eq_getElem dates_ts 0 hi, List.getD_eq_getElem dates_ts 0 hj]
    exact hsorted.rel_get_of_le (Fin.mk_le_mk.mpr hle)

theorem C8_witness :
    ([(-1 : ℚ), 1] : List ℚ) ≠ [] ∧
    List.Sorted (· ≤ ·) [(-1 : ℚ), 1] ∧
    (0 : ℕ) < ([(0 : ℚ)] : List ℚ).length ∧
    ∃ i, i < ([(-1 : ℚ), 1] : List ℚ).length ∧
      (get_closest_datapoint [(0 : ℚ)] [(-1 : ℚ), 1] [(5 : ℚ), 7]).getD 0 0
        = ([(5 : ℚ), 7] : List ℚ).getD i 0 ∧
      (∀ j, j < ([(-1 : ℚ), 1] : List ℚ).length →
        |([(-1 : ℚ), 1] : List ℚ).getD i 0 - ([(0 : ℚ)] : List ℚ).getD 0 0|
          ≤ |([(-1 : ℚ), 1] : List ℚ).getD j 0 - ([(0 : ℚ)] : List ℚ).getD 0 0|) ∧
      (∀ j, j < ([(-1 : ℚ), 1] : List ℚ).length →
        |([(-1 : ℚ), 1] : List ℚ).getD j 0 - ([(0 : ℚ)] : List ℚ).getD 0 0|
            = |([(-1 : ℚ), 1] : List ℚ).getD i 0 - ([(0 : ℚ)] : List ℚ).getD 0 0| →
        i ≤ j ∧ ([(-1 : ℚ), 1] : List ℚ).getD i 0 ≤ ([(-1 : ℚ), 1] : List ℚ).getD j 0) :=
  ⟨by simp, by norm_num [List.sorted_cons], by simp,
    C8_nearest_tide_lookup [0] [(-1), 1] [5, 7] (by simp)
      (by norm_num [List.sorted_cons]) 0 (by simp)⟩

theorem out_dict_table_length (dates : List ℚ) (cols : List (String × List FVal)) :
    (out_dict_table dates cols).length = dates.length := by
  simp [out_dict_table]

theorem out_dict_table_map_fst (dates : List ℚ) (cols : List (String × List FVal)) :
    (out_dict_table dates cols).map Prod.fst = dates := by
  unfold out_dict_table
  rw [List.map_map]
  apply List.ext_getElem
  · simp
  · intro i h1 h2
    simp only [List.getElem_map, List.getElem_range, Function.comp_apply]
    exact List.getD_eq_getElem dates 0 h2

theorem out_dict_table_getD (dates : List ℚ) (cols : List (String × List FVal)) (i : ℕ)
    (hi : i < dates.length) :
    (out_dict_table dates cols).getD i (0, []) =
      (dates.getD i 0, cols.map (fun kv => kv.2.getD i FVal.nan)) := by
  unfold out_dict_table
  rw [List.getD_eq_getElem _ _ (by simpa using hi), List.getElem_map, List.getElem_range]

theorem compute_intersection_QC_keys (s : QCSettings)
    (obs : List (String × List (List (ℚ × ℚ)))) :
    (compute_intersection_QC s obs).map Prod.fst = obs.map Prod.fst := by
  unfold compute_intersection_QC
  rw [List.map_map]
  rfl

/-- C7: the assembled tables.  Under the alignment facts that hold in the notebook (each
transect observation list and the tide vector have one entry per curated date, transect
names are distinct), every raw series and every corrected series has exactly one entry per
curated date, both tables have one row per curated date, the date column of each table is
exactly the curated date axis (so rows appear in chronological date order whenever the
curated dates do), and row i carries the i-th entry of every series verbatim, NaN entries
included: no row is dropped. -/
theorem C7_assembled_tables (s : QCSettings) (obs : List (String × List (List (ℚ × ℚ))))
    (dates : List ℚ) (tides : List FVal) (ref slope : FVal)
    (hobs : ∀ p ∈ obs, List.length p.2 = dates.length)
    (htides : tides.length = dates.length)
    (hnd : (obs.map Prod.fst).Nodup) :
    (∀ p ∈ compute_intersection_QC s obs, p.2.length = dates.length) ∧
    (∀ p ∈ cross_distance_tidally_corrected (compute_intersection_QC s obs) tides ref slope,
      p.2.length = dates.length) ∧
    (out_dict_table dates (compute_intersection_QC s obs)).length = dates.length ∧
    (out_dict_table dates
        (cross_distance_tidally_corrected (compute_intersection_QC s obs)
          tides ref slope)).length = dates.length ∧
    (out_dict_table dates (compute_intersection_QC s obs)).map Prod.fst = dates ∧
    (out_dict_table dates
        (cross_distance_tidally_corrected (compute_intersection_QC s obs)
          tides ref slope)).map Prod.fst = dates ∧
    (∀ i, i < dates.length →
      (out_dict_table dates (compute_intersection_QC s obs)).getD i (0, [])
        = (dates.getD i 0,
            (compute_intersection_QC s obs).map (fun kv => kv.2.getD i FVal.nan))) ∧
    (∀ i, i < dates.length →
      (out_dict_table dates
          (cross_distance_tidally_corrected (compute_intersection_QC s obs)
            tides ref slope)).getD i (0, [])
        = (dates.getD i 0,
            (cross_distance_tidally_corrected (compute_intersection_QC s obs)
              tides ref slope).map (fun kv => kv.2.getD i FVal.nan))) := by
  have hraw : ∀ p ∈ compute_intersection_QC s obs, p.2.length = dates.length := by
    intro p hp
    unfold compute_intersection_QC at hp
    obtain ⟨q, hq, rfl⟩ := List.mem_map.mp hp
    rw [computeTransect_length]
    exact hobs q hq
  have hndc : ((compute_intersection_QC s obs).map Prod.fst).Nodup := by
    rw [compute_intersection_QC_keys]
    exact hnd
  have hcor : ∀ p ∈ cross_distance_tidally_corrected (compute_intersection_QC s obs)
      tides ref slope, p.2.length = dates.length := by
    intro p hp
    rw [cross_distance_tidally_corrected_eq _ _ _ _ hndc] at hp
    obtain ⟨q, hq, rfl⟩ := List.mem_map.mp hp
    rw [List.length_zipWith, correction_length, htides, hraw q hq]
    exact Nat.min_self _
  refine ⟨hraw, hcor, out_dict_table_length _ _, out_dict_table_length _ _,
    out_dict_table_map_fst _ _, out_dict_table_map_fst _ _, ?_, ?_⟩
  · intro i hi
    exact out_dict_table_getD _ _ i hi
  · intro i hi
    exact out_dict_table_getD _ _ i hi

theorem C7_witness :
    (∀ p ∈ ([("NA1", [[((100 : ℚ), (0 : ℚ))]])] : List (String × List (List (ℚ × ℚ)))),
      List.length p.2 = ([(0 : ℚ)] : List ℚ).length) ∧
    ([FVal.fin 0] : List FVal).length = ([(0 : ℚ)] : List ℚ).length ∧
    (([("NA1", [[((100 : ℚ), (0 : ℚ))]])] : List (String × List (List (ℚ × ℚ)))).map
      Prod.fst).Nodup ∧
    ((∀ p ∈ compute_intersection_QC ⟨25, 3, 15, 50, -100, Policy.auto, 1/10⟩
        [("NA1", [[((100 : ℚ), (0 : ℚ))]])], p.2.length = ([(0 : ℚ)] : List ℚ).length) ∧
    (∀ p ∈ cross_distance_tidally_corrected
        (compute_intersection_QC ⟨25, 3, 15, 50, -100, Policy.auto, 1/10⟩
          [("NA1", [[((100 : ℚ), (0 : ℚ))]])]) [FVal.fin 0] (FVal.fin 0) (FVal.fin (1/60)),
      p.2.length = ([(0 : ℚ)] : List ℚ).length) ∧
    (out_dict_table [(0 : ℚ)] (compute_intersection_QC ⟨25, 3, 15, 50, -100, Policy.auto, 1/10⟩
        [("NA1", [[((100 : ℚ), (0 : ℚ))]])])).length = ([(0 : ℚ)] : List ℚ).length ∧
    (out_dict_table [(0 : ℚ)]
        (cross_distance_tidally_corrected
          (compute_intersection_QC ⟨25, 3, 15, 50, -100, Policy.auto, 1/10⟩
            [("NA1", [[((100 : ℚ), (0 : ℚ))]])]) [FVal.fin 0] (FVal.fin 0)
          (FVal.fin (1/60)))).length = ([(0 : ℚ)] : List ℚ).length ∧
    (out_dict_table [(0 : ℚ)] (compute_intersection_QC ⟨25, 3, 15, 50, -100, Policy.auto, 1/10⟩
        [("NA1", [[((100 : ℚ), (0 : ℚ))]])])).map Prod.fst = [(0 : ℚ)] ∧
    (out_dict_table [(0 : ℚ)]
        (cross_distance_tidally_corrected
          (compute_intersection_QC ⟨25, 3, 15, 50, -100, Policy.auto, 1/10⟩
            [("NA1", [[((100 : ℚ), (0 : ℚ))]])]) [FVal.fin 0] (FVal.fin 0)
          (FVal.fin (1/60)))).map Prod.fst = [(0 : ℚ)] ∧
    (∀ i, i < ([(0 : ℚ)] : List ℚ).length →
      (out_dict_table [(0 : ℚ)] (compute_intersection_QC ⟨25, 3, 15, 50, -100, Policy.auto, 1/10⟩
          [("NA1", [[((100 : ℚ), (0 : ℚ))]])])).getD i (0, [])
        = (([(0 : ℚ)] : List ℚ).getD i 0,
            (compute_intersection_QC ⟨25, 3, 15, 50, -100, Policy.auto, 1/10⟩
              [("NA1", [[((100 : ℚ), (0 : ℚ))]])]).map (fun kv => kv.2.getD i FVal.nan))) ∧
    (∀ i, i < ([(0 : ℚ)] : List ℚ).length →
      (out_dict_table [(0 : ℚ)]
          (cross_distance_tidally_corrected
            (compute_intersection_QC ⟨25, 3, 15, 50, -100, Policy.auto, 1/10⟩
              [("NA1", [[((100 : ℚ), (0 : ℚ))]])]) [FVal.fin 0] (FVal.fin 0)
            (FVal.fin (1/60)))).getD i (0, [])
        = (([(0 : ℚ)] : List ℚ).getD i 0,
            (cross_distance_tidally_corrected
              (compute_intersection_QC ⟨25, 3, 15, 50, -100, Policy.auto, 1/10⟩
                [("NA1", [[((100 : ℚ), (0 : ℚ))]])]) [FVal.fin 0] (FVal.fin 0)
              (FVal.fin (1/60))).map (fun kv => kv.2.getD i FVal.nan)))) :=
  ⟨by simp, rfl, by simp,
    C7_assembled_tables ⟨25, 3, 15, 50, -100, Policy.auto, 1/10⟩
      [("NA1", [[((100 : ℚ), (0 : ℚ))]])] [(0 : ℚ)] [FVal.fin 0] (FVal.fin 0)
      (FVal.fin (1/60)) (by simp) rfl (by simp)⟩

/-- C10: the tidal correction writes only into the fresh output dict: after the loop the
input cross-distance dict is exactly what it was before, so every transect raw series (and
every entry of it) reads the same after the correction as before. -/
theorem C10_input_unchanged (cd : List (String × List FVal)) (tides : List FVal)
    (ref slope : FVal) :
    (tidal_run cd tides ref slope).1 = cd ∧
    ∀ k, ((tidal_run cd tides ref slope).1).lookup k = cd.lookup k := by
  have h1 : (tidal_run cd tides ref slope).1 = cd := by
    unfold tidal_run
    rw [tidal_foldl_eq]
  exact ⟨h1, fun k => by rw [h1]⟩
